import Mathlib

/-!
Verification development for the AlephOS kernel core
(physical memory manager, virtual memory manager, kernel heap,
round-robin scheduler, tty pipe object, system-call descriptor layer).

The C sources are shallowly embedded: machine integers are natural
numbers with explicit reductions modulo 2^64 (size_t / uint64_t) or
2^32 (uint32_t) at the points where the C code stores or wraps them;
physical memory is a total function from addresses to values (the
higher-half direct map of the kernel is elided, so page tables are read
and written directly at their physical addresses); C functions that can
fail return Option or a Bool paired with the resulting state.  A C busy
wait loop whose body cannot change any state (the pipe read and write
loops of pipe.c, which only contain a comment in place of a sleep) is
modelled as divergence, i.e. the embedded function returns none.
Arguments of C type uint64_t are modelled as Nat; theorems carry
explicit bounds where the value of an argument at or above 2^64 would
matter.

The file is organised as definitions first (one section per subsystem),
then theorems.
-/

namespace AlephOS

/-! ## Common machine arithmetic -/

/-- Addition of two size_t / uint64_t values. -/
def add64 (a b : Nat) : Nat := (a + b) % 2 ^ 64

/-- Subtraction of two size_t / uint64_t values (two's complement wrap). -/
def sub64 (a b : Nat) : Nat := (a % 2 ^ 64 + 2 ^ 64 - b % 2 ^ 64) % 2 ^ 64

/-- The 64-bit value of the C expression ~0xFFF applied to a uint64_t:
bits 12..63 set. -/
def PTE_ADDR_MASK : Nat := 0xFFFFFFFFFFFFF000

/-! ## Physical memory manager (src/kernel/src/mm/pmm.c)

The bitmap is modelled as a total function from entry index to 64-bit
entry value; a set bit marks an in-use frame.  PAGE_SIZE is 4096 and
BITS_PER_ENTRY is 64 as in the source.  The HHDM conversion used to
address the bitmap array is elided: the model reads and writes the
bitmap directly. -/

structure PMMState where
  bitmap : Nat → Nat
  bitmap_size : Nat
  total_pages : Nat
  free_pages : Nat

/-- bitmap_set of pmm.c. -/
def bitmapSet (s : PMMState) (page : Nat) : PMMState :=
  {s with bitmap := fun i =>
    if i = page / 64 then s.bitmap (page / 64) ||| (1 <<< (page % 64))
    else s.bitmap i}

/-- bitmap_test of pmm.c. -/
def bitmapTest (s : PMMState) (page : Nat) : Bool :=
  s.bitmap (page / 64) &&& (1 <<< (page % 64)) ≠ 0

/-- The inner bit scan of pmm_alloc_page: find the first clear bit of a
64-bit entry, starting from the given bit, with the given number of bit
positions left to try. -/
def findClearBit (entry bit fuel : Nat) : Option Nat :=
  match fuel with
  | 0 => none
  | f + 1 =>
    if entry &&& (1 <<< bit) = 0 then some bit
    else findClearBit entry (bit + 1) f

/-- The entry scan of pmm_alloc_page, from index idx with the given
number of indices left before bitmap_size is reached.  The free-page
decrement is written as plain subtraction: in the source the loop is
only entered under the free_pages != 0 guard of pmm_alloc_page, so the
uint64_t decrement never wraps. -/
def pmmAllocLoop (s : PMMState) (idx fuel : Nat) : Option Nat × PMMState :=
  match fuel with
  | 0 => (none, s)
  | f + 1 =>
    let entry := s.bitmap idx
    if entry = 2 ^ 64 - 1 then pmmAllocLoop s (idx + 1) f
    else
      match findClearBit entry 0 64 with
      | none => pmmAllocLoop s (idx + 1) f
      | some bit =>
        let page := idx * 64 + bit
        if s.total_pages ≤ page then (none, s)
        else (some (page * 4096),
          {bitmapSet s page with free_pages := s.free_pages - 1})

/-- pmm_alloc_page of pmm.c: scan starts at entry index 1. -/
def pmmAllocPage (s : PMMState) : Option Nat × PMMState :=
  if s.free_pages = 0 then (none, s)
  else pmmAllocLoop s 1 (s.bitmap_size - 1)

/-- The bit-setting loop of pmm_alloc_pages once a consecutive run has
been found: sets the given number of pages starting at page start. -/
def pmmSetRun (s : PMMState) (start k : Nat) : PMMState :=
  match k with
  | 0 => s
  | k' + 1 => pmmSetRun (bitmapSet s start) (start + 1) k'

/-- The inner bit loop of pmm_alloc_pages over one bitmap entry.
A none result means the loop over the 64 bits of entry idx finished
without finding a run, and the outer loop continues; some r means
pmm_alloc_pages returns r. -/
def pmmAllocPagesInner (s : PMMState) (count idx bit consecutive start_bit fuel : Nat) :
    Option (Option Nat × PMMState) :=
  match fuel with
  | 0 => none
  | f + 1 =>
    let page := idx * 64 + bit
    if s.total_pages ≤ page then some (none, s)
    else if bitmapTest s page = false then
      let start' := if consecutive = 0 then bit else start_bit
      if consecutive + 1 = count then
        let base := idx * 64 + start'
        some (some (base * 4096),
          {pmmSetRun s base count with free_pages := s.free_pages - count})
      else pmmAllocPagesInner s count idx (bit + 1) (consecutive + 1) start' f
    else pmmAllocPagesInner s count idx (bit + 1) 0 start_bit f

/-- The outer entry loop of pmm_alloc_pages, starting at entry idx with
the given number of entries left; consecutive and start_bit restart at 0
for each entry, as in the source. -/
def pmmAllocPagesOuter (s : PMMState) (count idx fuel : Nat) : Option Nat × PMMState :=
  match fuel with
  | 0 => (none, s)
  | f + 1 =>
    match pmmAllocPagesInner s count idx 0 0 0 64 with
    | some r => r
    | none => pmmAllocPagesOuter s count (idx + 1) f

/-- pmm_alloc_pages of pmm.c. -/
def pmmAllocPages (s : PMMState) (count : Nat) : Option Nat × PMMState :=
  if count = 0 ∨ s.free_pages < count then (none, s)
  else if count = 1 then pmmAllocPage s
  else pmmAllocPagesOuter s count 1 (s.bitmap_size - 1)

/-! ## Virtual memory manager (src/kernel/src/mm/vmm.c)

Physical memory holding page tables is a total function from the pair
(table physical address, entry index) to the 64-bit entry value.  The
phys_to_virt HHDM aliasing of the source is elided: the model addresses
tables by their physical address directly.  current_pml4 is the root
field. -/

structure VMMState where
  mem : Nat × Nat → Nat
  root : Nat
  pmm : PMMState

/-- PTE flag constants of vmm.h. -/
def PTE_PRESENT : Nat := 1

def PTE_WRITABLE : Nat := 2

def PTE_NX : Nat := 1 <<< 63

/-- Page-table indices of get_page_indices in vmm.c. -/
def pml4Index (v : Nat) : Nat := (v >>> 39) &&& 0x1FF

def pdpIndex (v : Nat) : Nat := (v >>> 30) &&& 0x1FF

def pdIndex (v : Nat) : Nat := (v >>> 21) &&& 0x1FF

def ptIndex (v : Nat) : Nat := (v >>> 12) &&& 0x1FF

/-- Write one 64-bit entry of a page table. -/
def writeEntry (m : Nat × Nat → Nat) (k : Nat × Nat) (val : Nat) : Nat × Nat → Nat :=
  fun k' => if k' = k then val else m k'

/-- The memset of create_page_table: zero the 512 entries of the table
at physical address t. -/
def zeroTable (t : Nat) (m : Nat × Nat → Nat) : Nat × Nat → Nat :=
  fun k => if k.1 = t ∧ k.2 < 512 then 0 else m k

/-- create_page_table of vmm.c: allocate a frame from the PMM and zero
it.  Returns the physical address of the new table. -/
def createPageTable (s : VMMState) : Option (Nat × VMMState) :=
  match pmmAllocPage s.pmm with
  | (none, _) => none
  | (some t, pmm') => some (t, {s with pmm := pmm', mem := zeroTable t s.mem})

/-- The repeated get-or-create step of vmm_map_page at one intermediate
level: table tbl, entry index i.  If the entry is present, follow
entry & ~0xFFF; otherwise create a table and install
table_address | flags | PTE_PRESENT, exactly as in the source.  Returns
the physical address of the next-level table and the new state, or none
if the PMM is exhausted (in which case vmm_map_page returns false with
the state unchanged, since a failed pmm_alloc_page mutates nothing). -/
def getOrCreate (s : VMMState) (tbl i flags : Nat) : Option (Nat × VMMState) :=
  if s.mem (tbl, i) &&& PTE_PRESENT ≠ 0 then
    some (s.mem (tbl, i) &&& PTE_ADDR_MASK, s)
  else
    match createPageTable s with
    | none => none
    | some (t, s') =>
      some (t, {s' with mem := writeEntry s'.mem (tbl, i) (t ||| flags ||| PTE_PRESENT)})

/-- vmm_map_page of vmm.c.  The TLB invalidation is a CPU-local effect
with no bearing on the memory state and is elided. -/
def vmmMapPage (s : VMMState) (virt phys flags : Nat) : Bool × VMMState :=
  match getOrCreate s s.root (pml4Index virt) flags with
  | none => (false, s)
  | some (pdp, s1) =>
    match getOrCreate s1 pdp (pdpIndex virt) flags with
    | none => (false, s1)
    | some (pd, s2) =>
      match getOrCreate s2 pd (pdIndex virt) flags with
      | none => (false, s2)
      | some (pt, s3) =>
        let leaf := phys ||| flags ||| PTE_PRESENT
        (true, {s3 with mem := writeEntry s3.mem (pt, ptIndex virt) leaf})

/-- The list of page-table node addresses that vmm_map_page visits or
creates for the walk of virt: root, then the three lower-level tables.
Defined through the same getOrCreate chain as vmmMapPage, so it names
exactly the frames the map touches.  Used to state that the walk is
free of aliasing (a property of every well-formed table tree). -/
def mapPageFrames (s : VMMState) (virt flags : Nat) : List Nat :=
  s.root ::
    (match getOrCreate s s.root (pml4Index virt) flags with
    | none => []
    | some (pdp, s1) =>
      pdp ::
        (match getOrCreate s1 pdp (pdpIndex virt) flags with
        | none => []
        | some (pd, s2) =>
          pd ::
            (match getOrCreate s2 pd (pdIndex virt) flags with
            | none => []
            | some (pt, _) => [pt])))

/-- vmm_get_phys_addr of vmm.c. -/
def vmmGetPhysAddr (s : VMMState) (virt : Nat) : Nat :=
  let e4 := s.mem (s.root, pml4Index virt)
  if e4 &&& PTE_PRESENT = 0 then 0
  else
    let e3 := s.mem (e4 &&& PTE_ADDR_MASK, pdpIndex virt)
    if e3 &&& PTE_PRESENT = 0 then 0
    else
      let e2 := s.mem (e3 &&& PTE_ADDR_MASK, pdIndex virt)
      if e2 &&& PTE_PRESENT = 0 then 0
      else
        let e1 := s.mem (e2 &&& PTE_ADDR_MASK, ptIndex virt)
        if e1 &&& PTE_PRESENT = 0 then 0
        else (e1 &&& PTE_ADDR_MASK) ||| (virt &&& 0xFFF)

/-- The physical address of the level-1 page table on the walk of virt,
together with the leaf index: the unique memory location that
vmm_unmap_page may modify.  Follows the same present-entry walk as the
source. -/
def unmapLeafKey (s : VMMState) (virt : Nat) : Nat × Nat :=
  let e4 := s.mem (s.root, pml4Index virt)
  let e3 := s.mem (e4 &&& PTE_ADDR_MASK, pdpIndex virt)
  let e2 := s.mem (e3 &&& PTE_ADDR_MASK, pdIndex virt)
  (e2 &&& PTE_ADDR_MASK, ptIndex virt)

/-- vmm_unmap_page of vmm.c.  The TLB invalidation is elided as in
vmmMapPage. -/
def vmmUnmapPage (s : VMMState) (virt : Nat) : Bool × VMMState :=
  let e4 := s.mem (s.root, pml4Index virt)
  if e4 &&& PTE_PRESENT = 0 then (false, s)
  else
    let e3 := s.mem (e4 &&& PTE_ADDR_MASK, pdpIndex virt)
    if e3 &&& PTE_PRESENT = 0 then (false, s)
    else
      let e2 := s.mem (e3 &&& PTE_ADDR_MASK, pdIndex virt)
      if e2 &&& PTE_PRESENT = 0 then (false, s)
      else
        let e1 := s.mem (e2 &&& PTE_ADDR_MASK, ptIndex virt)
        if e1 &&& PTE_PRESENT = 0 then (false, s)
        else (true, {s with mem := writeEntry s.mem (e2 &&& PTE_ADDR_MASK, ptIndex virt) 0})

/-! ## Concrete states used by witnesses and counterexamples -/

/-- A small PMM state: bitmap entry 1 is fully clear, everything else is
fully set; 128 pages; 64 of them free. -/
def exPMM : PMMState :=
  { bitmap := fun i => if i = 1 then 0 else 2 ^ 64 - 1
    bitmap_size := 2
    total_pages := 128
    free_pages := 64 }

/-- A small VMM state over exPMM: all page-table memory zero, root table
at physical address 0x1000. -/
def exVMM : VMMState :=
  { mem := fun _ => 0
    root := 0x1000
    pmm := exPMM }

/-! ## Process model and round-robin scheduler (src/kernel/src/core/process.c)

Processes are keyed by pid; the control-block fields the scheduler
touches are the state tag and the quantum counters.  The intrusive
next pointers of the source realise exactly a FIFO list, modelled here
as the queue field (head first).  Context switching itself
(context_switch in assembly) only moves CPU registers and is elided;
process_switch's update of current_process is kept. -/

inductive ProcState where
  | NEW
  | READY
  | RUNNING
  | BLOCKED
  | TERMINATED
deriving DecidableEq

structure Proc where
  state : ProcState
  time_slice : Nat
  time_used : Nat
deriving DecidableEq

structure SchedState where
  procs : Nat → Proc
  queue : List Nat
  current : Option Nat

/-- Update the control block of one pid. -/
def setProc (s : SchedState) (pid : Nat) (p : Proc) : SchedState :=
  {s with procs := fun q => if q = pid then p else s.procs q}

/-- scheduler_add of process.c: set state READY, clear the next link,
append at the tail. -/
def schedulerAdd (s : SchedState) (pid : Nat) : SchedState :=
  let s1 := setProc s pid {s.procs pid with state := ProcState.READY}
  {s1 with queue := s1.queue ++ [pid]}

/-- scheduler_next of process.c: pop the head of the ready queue. -/
def schedulerNext (s : SchedState) : Option Nat × SchedState :=
  match s.queue with
  | [] => (none, s)
  | p :: rest => (some p, {s with queue := rest})

/-- process_switch of process.c: nothing happens when the target equals
the current process; otherwise only current_process is reassigned.  No
process state tag is modified anywhere in this function. -/
def processSwitch (s : SchedState) (next : Nat) : SchedState :=
  if s.current = some next then s else {s with current := some next}

/-- scheduler_tick of process.c. -/
def schedulerTick (s : SchedState) : SchedState :=
  match s.current with
  | none => s
  | some c =>
    let s1 := setProc s c {s.procs c with time_used := (s.procs c).time_used + 1}
    if (s1.procs c).time_slice ≤ (s1.procs c).time_used then
      match schedulerNext s1 with
      | (none, s2) => s2
      | (some n, s2) =>
        let s3 := setProc s2 c {s2.procs c with time_used := 0}
        processSwitch (schedulerAdd s3 c) n
    else s1

/-- Scheduler state at boot: no processes yet (every control block is a
fresh NEW block with the default 100-tick slice), empty queue, no
current process. -/
def exSched0 : SchedState :=
  { procs := fun _ => ⟨ProcState.NEW, 100, 0⟩
    queue := []
    current := none }

/-! ## Pipe object (src/kernel/src/core/drivers/tty/pipe.c)

The circular buffer is a total function from index to byte.  pipe_read
and pipe_write contain busy-wait loops whose bodies change no state
(the sleep is a comment in the source), so inputs that enter them can
never return: those cases are modelled as none.  The buf pointer only
matters through its null check and the bytes it supplies, so reads take
a null flag and return the bytes read, and writes take the source bytes
as a function from offset to byte value. -/

def PIPE_BUFFER_SIZE : Nat := 4096

def PIPE_STATE_OPEN : Nat := 0x1

def PIPE_STATE_READABLE : Nat := 0x2

def PIPE_STATE_WRITABLE : Nat := 0x4

def PIPE_STATE_EOF : Nat := 0x8

structure TtyPipe where
  buffer : Nat → Nat
  read_pos : Nat
  write_pos : Nat
  count : Nat
  state : Nat
  readers : Nat
  writers : Nat

/-- The copying loop of pipe_read: transfer bytes from the circular
buffer, advancing read_pos modulo the buffer size and decrementing
count once per byte. -/
def pipeReadLoop (p : TtyPipe) (toRead : Nat) (acc : List Nat) : TtyPipe × List Nat :=
  match toRead with
  | 0 => (p, acc)
  | t + 1 =>
    let byte := p.buffer p.read_pos
    pipeReadLoop
      {p with read_pos := (p.read_pos + 1) &&& (PIPE_BUFFER_SIZE - 1),
              count := p.count - 1}
      t (acc ++ [byte])

/-- pipe_read of pipe.c.  Result none is the empty-pipe busy wait with
writers present and no EOF: the loop body cannot change the state, so
the call never returns. -/
def pipeRead (p : TtyPipe) (bufIsNull : Bool) (count : Nat) :
    Option (Int × TtyPipe × List Nat) :=
  if bufIsNull then some (-1, p, [])
  else if p.state &&& PIPE_STATE_READABLE = 0 then some (-1, p, [])
  else if p.count = 0 then
    if p.writers = 0 ∨ p.state &&& PIPE_STATE_EOF ≠ 0 then some (0, p, [])
    else none
  else
    let to_read := min count p.count
    match pipeReadLoop p to_read [] with
    | (p2, bytes) => some ((to_read : Int), p2, bytes)

/-- The copying loop of pipe_write: remaining bytes still requested,
bytes_written bytes already stored.  When the buffer is full the source
spins until readers would drop to zero, but readers cannot change
during the call, so with readers still positive the loop never exits:
none. -/
def pipeWriteLoop (p : TtyPipe) (buf : Nat → Nat) (remaining bytes_written : Nat) :
    Option (Int × TtyPipe) :=
  match remaining with
  | 0 => some ((bytes_written : Int), p)
  | r + 1 =>
    if p.count = PIPE_BUFFER_SIZE then
      if p.readers = 0 then
        some ((if 0 < bytes_written then (bytes_written : Int) else -1), p)
      else none
    else
      pipeWriteLoop
        {p with buffer := fun i => if i = p.write_pos then buf bytes_written else p.buffer i,
                write_pos := (p.write_pos + 1) &&& (PIPE_BUFFER_SIZE - 1),
                count := p.count + 1}
        buf r (bytes_written + 1)

/-- pipe_write of pipe.c. -/
def pipeWrite (p : TtyPipe) (buf : Option (Nat → Nat)) (count : Nat) :
    Option (Int × TtyPipe) :=
  match buf with
  | none => some (-1, p)
  | some b =>
    if p.state &&& PIPE_STATE_WRITABLE = 0 then some (-1, p)
    else if p.readers = 0 then some (-1, p)
    else pipeWriteLoop p b count 0

/-- A freshly created pipe (pipe_create state: OPEN|READABLE|WRITABLE)
whose writer end is held but with no readers registered. -/
def exPipeNoReaders : TtyPipe :=
  { buffer := fun _ => 0, read_pos := 0, write_pos := 0, count := 0
    state := 7, readers := 0, writers := 1 }

/-- An empty open pipe with one reader and one writer and no EOF. -/
def exPipeOpen : TtyPipe :=
  { buffer := fun _ => 0, read_pos := 0, write_pos := 0, count := 0
    state := 7, readers := 1, writers := 1 }

/-- An empty open pipe whose last writer has been released:
pipe_remove_writer cleared WRITABLE and latched EOF. -/
def exPipeEOF : TtyPipe :=
  { buffer := fun _ => 0, read_pos := 0, write_pos := 0, count := 0
    state := 0xB, readers := 1, writers := 0 }

/-! ## System-call layer: fd table, read and write (src/kernel/src/core/syscalls.c)

The global fd_table is a total function from slot number to an optional
descriptor; the syscalls.c pipe_t objects reachable from private_data
live in a store indexed by the private_data value (the C pointer).
External collaborators (serial port, framebuffer, ext2, network) are
abstracted as an oracle record supplying their observable results; the
kernel-heap malloc inside alloc_fd and the descriptor copy loops are
modelled as succeeding unless the oracle says otherwise. -/

def EINVAL : Int := 22

def EBADF : Int := 9

def EFAULT : Int := 14

def EMFILE : Int := 24

def ENOMEM : Int := 12

def EPIPE : Int := 32

structure FileDesc where
  inode : Nat
  offset : Nat
  flags : Nat
  refcount : Nat
  private_data : Nat
  fdtype : Nat
deriving DecidableEq

/-- The pipe record declared locally in syscalls.c (distinct from the
tty pipe_t: it has no reader or writer counts and no state flags). -/
structure SysPipe where
  buffer : Nat → Nat
  buffer_size : Nat
  read_pos : Nat
  write_pos : Nat
  data_size : Nat

structure SysState where
  fds : Nat → Option FileDesc
  pipes : Nat → SysPipe

/-- Results supplied by the external collaborators of syscalls.c. -/
structure Ext where
  serial_byte : Nat
  fb_present : Bool
  ext2_read_ok : Bool
  ext2_write_ok : Bool
  net_recv_ok : Bool
  net_recv_len : Nat
  net_send_result : Int

/-- The slot scan of alloc_fd, from slot i with fuel slots left.  When a
free slot is found, the descriptor is allocated (malloc modelled by the
mallocOk flag: on failure the source returns -ENOMEM), zeroed and given
refcount 1. -/
def allocFdLoop (s : SysState) (mallocOk : Bool) (i fuel : Nat) : Int × SysState :=
  match fuel with
  | 0 => (-EMFILE, s)
  | f + 1 =>
    match s.fds i with
    | some _ => allocFdLoop s mallocOk (i + 1) f
    | none =>
      if mallocOk then
        ((i : Int),
          {s with fds := fun j => if j = i then some ⟨0, 0, 0, 1, 0, 0⟩ else s.fds j})
      else (-ENOMEM, s)

/-- alloc_fd of syscalls.c: first free slot among 0..255. -/
def allocFd (s : SysState) (mallocOk : Bool) : Int × SysState :=
  allocFdLoop s mallocOk 0 256

/-- The byte-copy loop of the pipe branch of sys_read: k bytes starting
at read_pos, advancing modulo buffer_size. -/
def sysPipeReadLoop (pd : SysPipe) (k : Nat) (acc : List Nat) : SysPipe × List Nat :=
  match k with
  | 0 => (pd, acc)
  | k1 + 1 =>
    let b := pd.buffer pd.read_pos
    sysPipeReadLoop {pd with read_pos := (pd.read_pos + 1) % pd.buffer_size} k1 (acc ++ [b])

/-- The byte-copy loop of the pipe branch of sys_write. -/
def sysPipeWriteLoop (pd : SysPipe) (bytes : List Nat) : SysPipe :=
  match bytes with
  | [] => pd
  | b :: rest =>
    sysPipeWriteLoop
      {pd with buffer := fun i => if i = pd.write_pos then b else pd.buffer i,
               write_pos := (pd.write_pos + 1) % pd.buffer_size}
      rest

/-- sys_read of syscalls.c.  The returned list is the bytes stored into
the user buffer.  Note the order of the source: the null check yields
-EINVAL, the table check yields -EBADF, and only then fd 0 is served
from the serial port.  FD_TYPE_PIPE is 2, FD_TYPE_SOCKET is 1; other
types fall through to the ext2 file path. -/
def sysRead (s : SysState) (ext : Ext) (fd : Int) (bufIsNull : Bool) (count : Nat) :
    Int × SysState × List Nat :=
  if bufIsNull then (-EINVAL, s, [])
  else if fd < 0 ∨ 256 ≤ fd then (-EBADF, s, [])
  else
    match s.fds fd.toNat with
    | none => (-EBADF, s, [])
    | some d =>
      if fd = 0 then
        if 0 < count then (1, s, [ext.serial_byte]) else (0, s, [])
      else if d.fdtype = 2 then
        let pd := s.pipes d.private_data
        let to_read := min count pd.data_size
        match sysPipeReadLoop pd to_read [] with
        | (pd1, bytes) =>
          let pd2 := {pd1 with data_size := pd1.data_size - to_read}
          ((to_read : Int),
            {s with pipes := fun j => if j = d.private_data then pd2 else s.pipes j},
            bytes)
      else if d.fdtype = 1 then
        if ext.net_recv_ok then ((ext.net_recv_len : Int), s, []) else (-5, s, [])
      else
        if ext.ext2_read_ok then
          ((count : Int),
            {s with fds := fun j => if j = fd.toNat
              then some {d with offset := (d.offset + count) % 2 ^ 32} else s.fds j},
            [])
        else (-5, s, [])

/-- sys_write of syscalls.c.  The data argument carries the bytes at the
user buffer; its length is the count argument of the source.  fds 1 and
2 render to the framebuffer (external; its cursor statics are elided)
and report the full count; the pipe branch stores what fits and returns
that amount, with no reader check and no -EPIPE anywhere; -5 is -EIO. -/
def sysWrite (s : SysState) (ext : Ext) (fd : Int) (bufIsNull : Bool) (data : List Nat) :
    Int × SysState :=
  if bufIsNull then (-EINVAL, s)
  else if fd < 0 ∨ 256 ≤ fd then (-EBADF, s)
  else
    match s.fds fd.toNat with
    | none => (-EBADF, s)
    | some d =>
      if fd = 1 ∨ fd = 2 then
        if ext.fb_present then ((data.length : Int), s) else (-5, s)
      else if d.fdtype = 2 then
        let pd := s.pipes d.private_data
        let available := pd.buffer_size - pd.data_size
        let to_write := min data.length available
        let pd1 := sysPipeWriteLoop pd (data.take to_write)
        let pd2 := {pd1 with data_size := pd1.data_size + to_write}
        ((to_write : Int),
          {s with pipes := fun j => if j = d.private_data then pd2 else s.pipes j})
      else if d.fdtype = 1 then (ext.net_send_result, s)
      else
        if ext.ext2_write_ok then
          ((data.length : Int),
            {s with fds := fun j => if j = fd.toNat
              then some {d with offset := (d.offset + data.length) % 2 ^ 32} else s.fds j})
        else (-5, s)

/-- The fd table at kernel start: the static array of null pointers.
No slot - in particular none of 0, 1, 2 - is populated by any
initialisation code in the source. -/
def initSysState : SysState :=
  { fds := fun _ => none
    pipes := fun _ => ⟨fun _ => 0, 0, 0, 0, 0⟩ }

/-- A fixed external-collaborator oracle for concrete evaluations. -/
def exExt : Ext :=
  { serial_byte := 65, fb_present := true, ext2_read_ok := true
    ext2_write_ok := true, net_recv_ok := true, net_recv_len := 0
    net_send_result := 0 }

/-! ## Kernel heap (src/kernel/src/mm/heap.c)

Blocks are kept in chain order; the doubly linked prev and next
pointers of the source realise exactly this chain, and the LAST flag
marks its tail.  Each block records its header fields (magic, size
including the 28-byte packed header, flags) plus its address, which the
source manipulates through pointer arithmetic.  heap_alloc returns the
block whose data payload the C function returns a pointer to; the
header preceding that pointer is the block itself. -/

def HEAP_BLOCK_MAGIC : Nat := 0x1BADB002

def HEAP_HEADER_SIZE : Nat := 28

def BLOCK_FREE : Nat := 0x1

def BLOCK_LAST : Nat := 0x2

def HEAP_PAGE_SIZE : Nat := 4096

structure HeapBlock where
  magic : Nat
  size : Nat
  flags : Nat
  addr : Nat
deriving DecidableEq

structure HeapState where
  heap : List HeapBlock
  stats_total_size : Nat
  stats_used_size : Nat
  stats_free_size : Nat
  stats_total_blocks : Nat
  stats_free_blocks : Nat
  vmm : VMMState

/-- find_free_block of heap.c: first FREE block of adequate size; the
walk stops after the LAST block.  need is the size_t value
size + sizeof(struct heap_block) of the source comparison. -/
def findFreeBlock (bs : List HeapBlock) (need : Nat) : Option Nat :=
  match bs with
  | [] => none
  | b :: rest =>
    if b.flags &&& BLOCK_FREE ≠ 0 ∧ need ≤ b.size then some 0
    else if b.flags &&& BLOCK_LAST ≠ 0 then none
    else
      match findFreeBlock rest need with
      | some i => some (i + 1)
      | none => none

/-- The walk of expand_heap to the first block carrying BLOCK_LAST. -/
def findLastIdx (bs : List HeapBlock) : Option Nat :=
  match bs with
  | [] => none
  | b :: rest =>
    if b.flags &&& BLOCK_LAST ≠ 0 then some 0
    else
      match findLastIdx rest with
      | some i => some (i + 1)
      | none => none

/-- split_block of heap.c.  Returns the (possibly shrunk) block and the
new FREE remainder block, if the remainder is at least
HEAP_MIN_BLOCK_SIZE (= sizeof(struct heap_block) = 28).  All stored
sizes are uint32_t, all intermediate arithmetic size_t. -/
def splitBlock (b : HeapBlock) (size : Nat) : HeapBlock × Option HeapBlock :=
  let remaining := sub64 (sub64 b.size size) HEAP_HEADER_SIZE
  if remaining < HEAP_HEADER_SIZE then (b, none)
  else
    ({b with size := add64 size HEAP_HEADER_SIZE % 2 ^ 32,
             flags := b.flags &&& (2 ^ 32 - 3)},
      some { magic := HEAP_BLOCK_MAGIC
             size := remaining % 2 ^ 32
             flags := BLOCK_FREE ||| (if b.flags &&& BLOCK_LAST ≠ 0 then BLOCK_LAST else 0)
             addr := add64 b.addr (add64 size HEAP_HEADER_SIZE) })

/-- The cleanup loop of expand_heap on a failed page allocation or
mapping: unmap the pages already mapped, in ascending order, starting
at page index j with k pages to go. -/
def cleanupUnmaps (vmm : VMMState) (base j k : Nat) : VMMState :=
  match k with
  | 0 => vmm
  | k1 + 1 =>
    cleanupUnmaps (vmmUnmapPage vmm (add64 base (j * HEAP_PAGE_SIZE))).2 base (j + 1) k1

/-- The page-mapping loop of expand_heap: for each of k remaining pages
(current index i), allocate a frame and map it PRESENT | WRITABLE past
the current heap end; on failure unmap what was mapped and fail. -/
def expandMapLoop (vmm : VMMState) (base i k : Nat) : Bool × VMMState :=
  match k with
  | 0 => (true, vmm)
  | k1 + 1 =>
    match pmmAllocPage vmm.pmm with
    | (none, pmm1) => (false, cleanupUnmaps {vmm with pmm := pmm1} base 0 i)
    | (some phys, pmm1) =>
      match vmmMapPage {vmm with pmm := pmm1} (add64 base (i * HEAP_PAGE_SIZE)) phys
          (PTE_PRESENT ||| PTE_WRITABLE) with
      | (false, vmm2) => (false, cleanupUnmaps vmm2 base 0 i)
      | (true, vmm2) => expandMapLoop vmm2 base (i + 1) k1

/-- expand_heap of heap.c.  The initial pmm_alloc_page result new_mem is
only null-checked by the source (the frame leaks); a chain with no LAST
block would make the source walk off the list and crash, modelled as
failure.  On success the old tail loses BLOCK_LAST, everything the
broken next pointer would orphan is dropped, and the new FREE | LAST
block of pages_needed pages is appended; returns its index. -/
def expandHeap (s : HeapState) (size : Nat) : Option Nat × HeapState :=
  let pages_needed := add64 (add64 size HEAP_HEADER_SIZE) (HEAP_PAGE_SIZE - 1) / HEAP_PAGE_SIZE
  match pmmAllocPage s.vmm.pmm with
  | (none, _) => (none, s)
  | (some _new_mem, pmm1) =>
    match findLastIdx s.heap with
    | none => (none, {s with vmm := {s.vmm with pmm := pmm1}})
    | some li =>
      match s.heap.get? li with
      | none => (none, {s with vmm := {s.vmm with pmm := pmm1}})
      | some last =>
        let base := add64 last.addr last.size
        match expandMapLoop {s.vmm with pmm := pmm1} base 0 pages_needed with
        | (false, vmm2) => (none, {s with vmm := vmm2})
        | (true, vmm2) =>
          let nb : HeapBlock :=
            { magic := HEAP_BLOCK_MAGIC
              size := pages_needed * HEAP_PAGE_SIZE % 2 ^ 32
              flags := BLOCK_FREE ||| BLOCK_LAST
              addr := base }
          let lastCleared := {last with flags := last.flags &&& (2 ^ 32 - 3)}
          (some (li + 1),
            {s with heap := s.heap.take li ++ [lastCleared, nb],
                    stats_total_size := add64 s.stats_total_size nb.size,
                    stats_free_size := add64 s.stats_free_size nb.size,
                    stats_total_blocks := add64 s.stats_total_blocks 1,
                    stats_free_blocks := add64 s.stats_free_blocks 1,
                    vmm := vmm2})

/-- The tail of heap_alloc once a block has been picked (index i):
split_block, clear BLOCK_FREE, update the statistics, return the
block whose data pointer the source returns. -/
def heapAllocFinish (s : HeapState) (i size : Nat) : Option HeapBlock × HeapState :=
  match s.heap.get? i with
  | none => (none, s)
  | some b =>
    let b1 := (splitBlock b size).1
    let rest := (splitBlock b size).2
    let bUsed := {b1 with flags := b1.flags &&& (2 ^ 32 - 2)}
    let restList : List HeapBlock := match rest with
      | some nb => [nb]
      | none => []
    let heap2 := s.heap.take i ++ bUsed :: (restList ++ s.heap.drop (i + 1))
    let tb := match rest with
      | some _ => add64 s.stats_total_blocks 1
      | none => s.stats_total_blocks
    let fb := match rest with
      | some _ => add64 s.stats_free_blocks 1
      | none => s.stats_free_blocks
    (some bUsed,
      {s with heap := heap2,
              stats_total_blocks := tb,
              stats_free_blocks := sub64 fb 1,
              stats_used_size := add64 s.stats_used_size bUsed.size,
              stats_free_size := sub64 s.stats_free_size bUsed.size})

/-- heap_alloc of heap.c. -/
def heapAlloc (s : HeapState) (n : Nat) : Option HeapBlock × HeapState :=
  if n = 0 then (none, s)
  else
    let size := ((n + 7) % 2 ^ 64) &&& (2 ^ 64 - 8)
    match findFreeBlock s.heap (add64 size HEAP_HEADER_SIZE) with
    | some i => heapAllocFinish s i size
    | none =>
      match expandHeap s size with
      | (none, s1) => (none, s1)
      | (some i, s1) => heapAllocFinish s1 i size

/-- Mathematical rounding of the claim: n rounded up to a multiple
of 8. -/
def roundUp8 (n : Nat) : Nat := (n + 7) / 8 * 8

/-- A heap holding the single initial FREE | LAST page block of
heap_init, over the concrete VMM state. -/
def exHeap : HeapState :=
  { heap := [⟨HEAP_BLOCK_MAGIC, 4096, 3, 0x100000⟩]
    stats_total_size := 4096
    stats_used_size := 0
    stats_free_size := 4096
    stats_total_blocks := 1
    stats_free_blocks := 1
    vmm := exVMM }

/-! ## Theorems: bit-manipulation toolkit -/

theorem PTE_ADDR_MASK_eq : PTE_ADDR_MASK = (2 ^ 52 - 1) <<< 12 := by decide

theorem testBit_PTE_ADDR_MASK (i : Nat) :
    PTE_ADDR_MASK.testBit i = (decide (12 ≤ i) && decide (i < 64)) := by
  rw [PTE_ADDR_MASK_eq, Nat.testBit_shiftLeft, Nat.testBit_two_pow_sub_one]
  rcases Nat.lt_or_ge i 12 with h | h
  · simp [Nat.not_le.mpr h]
  · have h2 : (i - 12 < 52) ↔ (i < 64) := by omega
    simp [h, h2]

theorem testBit_false_of_low_aligned {a i : Nat} (ha : a % 4096 = 0)
    (h12 : i < 12) : a.testBit i = false := by
  have h := Nat.testBit_mod_two_pow a 12 i
  rw [(by norm_num : (2:Nat) ^ 12 = 4096), ha] at h
  simpa [h12] using h.symm

theorem testBit_false_of_flags {f i : Nat} (hf : f < 4096) (h12 : 12 ≤ i) :
    f.testBit i = false := by
  apply Nat.testBit_lt_two_pow
  calc f < 4096 := hf
    _ = 2 ^ 12 := by norm_num
    _ ≤ 2 ^ i := Nat.pow_le_pow_right (by norm_num) h12

/-- A page-aligned address below 2^64, OR-ed with low flag bits, masked by
~0xFFF, gives back the address. -/
theorem or_flags_and_addr_mask {a f : Nat} (ha : a % 4096 = 0)
    (ha64 : a < 2 ^ 64) (hf : f < 4096) :
    (a ||| f) &&& PTE_ADDR_MASK = a := by
  apply Nat.eq_of_testBit_eq
  intro i
  rw [Nat.testBit_land, Nat.testBit_lor, testBit_PTE_ADDR_MASK]
  rcases Nat.lt_or_ge i 12 with h12 | h12
  · simp [Nat.not_le.mpr h12, testBit_false_of_low_aligned ha h12]
  · rcases Nat.lt_or_ge i 64 with h64 | h64
    · simp [h12, h64, testBit_false_of_flags hf h12]
    · have halarge : a.testBit i = false := by
        apply Nat.testBit_lt_two_pow
        calc a < 2 ^ 64 := ha64
          _ ≤ 2 ^ i := Nat.pow_le_pow_right (by norm_num) h64
      simp [Nat.not_lt.mpr h64, halarge, testBit_false_of_flags hf h12]

/-- Extracting the low 12 flag bits of an entry built from a page-aligned
address and flags below 4096 gives back the flags. -/
theorem or_flags_and_fff {a f : Nat} (ha : a % 4096 = 0) (hf : f < 4096) :
    (a ||| f) &&& 4095 = f := by
  apply Nat.eq_of_testBit_eq
  intro i
  rw [Nat.testBit_land, Nat.testBit_lor]
  have h4095 : (4095 : Nat).testBit i = decide (i < 12) := by
    rw [(by norm_num : (4095 : Nat) = 2 ^ 12 - 1), Nat.testBit_two_pow_sub_one]
  rw [h4095]
  rcases Nat.lt_or_ge i 12 with h12 | h12
  · simp [h12, testBit_false_of_low_aligned ha h12]
  · simp [Nat.not_lt.mpr h12, testBit_false_of_flags hf h12]

/-- An entry with the PRESENT bit OR-ed in is nonzero under the mask 1. -/
theorem or_one_and_one (x : Nat) : (x ||| 1) &&& 1 = 1 := by
  rw [Nat.and_one_is_mod]
  rcases Nat.eq_zero_or_pos ((x ||| 1) % 2) with h | h
  · exfalso
    have := Nat.or_mod_two_eq_one (a := x) (b := 1)
    simp [h] at this
  · have hlt : (x ||| 1) % 2 < 2 := Nat.mod_lt _ (by norm_num)
    omega

/-- The low 12 bits of a value, as used by the leaf translation. -/
theorem and_fff_eq_mod (x : Nat) : x &&& 4095 = x % 4096 := by
  rw [(by norm_num : (4095 : Nat) = 2 ^ 12 - 1),
    Nat.and_pow_two_sub_one_eq_mod]

/-- Page-table entry normalization: address, flags and the PRESENT bit,
masked by ~0xFFF, give back the address. -/
theorem entry_and_addr_mask {a f : Nat} (ha : a % 4096 = 0)
    (ha64 : a < 2 ^ 64) (hf : f < 4096) :
    (a ||| f ||| PTE_PRESENT) &&& PTE_ADDR_MASK = a := by
  show (a ||| f ||| 1) &&& PTE_ADDR_MASK = a
  rw [Nat.or_assoc]
  exact or_flags_and_addr_mask ha ha64
    (Nat.or_lt_two_pow (n := 12) (by simpa using hf) (by norm_num))

/-- Page-table entry normalization: the PRESENT bit of an installed
entry is set. -/
theorem entry_present (a f : Nat) : (a ||| f ||| PTE_PRESENT) &&& PTE_PRESENT ≠ 0 := by
  show (a ||| f ||| 1) &&& 1 ≠ 0
  rw [or_one_and_one]
  norm_num

/-- Masking by the address mask twice is the same as once. -/
theorem and_addr_mask_idem (x : Nat) :
    x &&& PTE_ADDR_MASK &&& PTE_ADDR_MASK = x &&& PTE_ADDR_MASK := by
  rw [Nat.and_assoc, Nat.and_self]

/-- Flag bits of an installed page-table entry: address, flags and the
PRESENT bit, masked by 0xFFF, give flags | PTE_PRESENT. -/
theorem entry_and_fff {a f : Nat} (ha : a % 4096 = 0) (hf : f < 4096) :
    (a ||| f ||| PTE_PRESENT) &&& 4095 = f ||| 1 := by
  show (a ||| f ||| 1) &&& 4095 = f ||| 1
  rw [Nat.or_assoc]
  exact or_flags_and_fff ha
    (Nat.or_lt_two_pow (n := 12) (by simpa using hf) (by norm_num))

/-! ## Theorems: physical memory manager -/

/-- A successful scan of the pmm_alloc_page loop sets one bit of the
bitmap, decrements the free counter and returns a page-aligned frame
address below the total-page bound. -/
theorem pmmAllocLoop_some {s : PMMState} {idx fuel a : Nat} {s' : PMMState}
    (h : pmmAllocLoop s idx fuel = (some a, s')) :
    ∃ page, a = page * 4096 ∧ page < s.total_pages ∧
      s' = {bitmapSet s page with free_pages := s.free_pages - 1} := by
  induction fuel generalizing idx with
  | zero => simp [pmmAllocLoop] at h
  | succ f ih =>
    rw [pmmAllocLoop] at h
    split at h
    · exact ih h
    · split at h
      · exact ih h
      · rename_i bit hb
        dsimp only at h
        split at h
        · exact absurd (congrArg Prod.fst h) (by simp)
        · rename_i hp
          have h1 := congrArg Prod.fst h
          have h2 := congrArg Prod.snd h
          simp only at h1 h2
          refine ⟨idx * 64 + bit, ?_, by omega, h2.symm⟩
          exact (Option.some.injEq _ _ ▸ h1).symm

/-- A successful pmm_alloc_page returns a page-aligned address below
total_pages * 4096 and decrements the free counter by exactly one,
leaving total_pages and bitmap_size unchanged. -/
theorem pmmAllocPage_some {s : PMMState} {a : Nat} {s' : PMMState}
    (h : pmmAllocPage s = (some a, s')) :
    a % 4096 = 0 ∧ a < s.total_pages * 4096 ∧
      s'.total_pages = s.total_pages ∧ s'.bitmap_size = s.bitmap_size ∧
      s'.free_pages + 1 = s.free_pages := by
  rw [pmmAllocPage] at h
  by_cases hz : s.free_pages = 0
  · simp [hz] at h
  · rw [if_neg hz] at h
    obtain ⟨page, rfl, hlt, rfl⟩ := pmmAllocLoop_some h
    refine ⟨Nat.mul_mod_left page 4096, by omega, rfl, rfl, ?_⟩
    simp [bitmapSet]
    omega

/-- Claim C7: pmm_alloc_pages called when fewer than n frames are free
returns NULL and leaves the bitmap and the free-frame counter exactly as
they were: the count > free_pages guard fires before any mutation. -/
theorem pmm_alloc_pages_insufficient (s : PMMState) (n : Nat)
    (h : s.free_pages < n) :
    pmmAllocPages s n = (none, s) := by
  rw [pmmAllocPages, if_pos (Or.inr h)]

/-- Witness for pmm_alloc_pages_insufficient: the concrete state exPMM
has 64 free frames, so a request for 100 fails and changes nothing. -/
theorem pmm_alloc_pages_insufficient_witness :
    exPMM.free_pages < 100 ∧ pmmAllocPages exPMM 100 = (none, exPMM) :=
  ⟨by decide, pmm_alloc_pages_insufficient exPMM 100 (by decide)⟩

/-! ## Theorems: virtual memory manager -/

/-- A successful create_page_table returns a page-aligned frame below
the total-page bound, consumes exactly one PMM frame, zeroes the new
table and changes nothing else. -/
theorem createPageTable_some {s : VMMState} {t : Nat} {s' : VMMState}
    (h : createPageTable s = some (t, s')) :
    pmmAllocPage s.pmm = (some t, s'.pmm) ∧
      t % 4096 = 0 ∧ t < s.pmm.total_pages * 4096 ∧
      s'.root = s.root ∧ s'.pmm.total_pages = s.pmm.total_pages ∧
      s'.pmm.free_pages + 1 = s.pmm.free_pages ∧
      s'.mem = zeroTable t s.mem := by
  rw [createPageTable] at h
  cases hp : pmmAllocPage s.pmm with
  | mk o pmm2 =>
    rw [hp] at h
    cases o with
    | none => simp at h
    | some t0 =>
      simp only [Option.some.injEq, Prod.mk.injEq] at h
      obtain ⟨rfl, rfl⟩ := h
      obtain ⟨hal, hlt, htotp, _, hfree⟩ := pmmAllocPage_some hp
      exact ⟨rfl, hal, hlt, rfl, htotp, hfree, rfl⟩

/-- Specification of the get-or-create step of vmm_map_page: the entry
at (tbl, i) afterwards is present and decodes (under & ~0xFFF) to the
returned next-level table address; all other memory locations outside
the possibly freshly zeroed table are untouched; root and the PMM
page total are preserved and the free count does not grow. -/
theorem getOrCreate_some {s : VMMState} {tbl i flags a : Nat} {s' : VMMState}
    (hf : flags < 4096) (htot : s.pmm.total_pages ≤ 2 ^ 20)
    (h : getOrCreate s tbl i flags = some (a, s')) :
    s'.root = s.root ∧
      s'.pmm.total_pages = s.pmm.total_pages ∧
      s'.pmm.free_pages ≤ s.pmm.free_pages ∧
      s'.mem (tbl, i) &&& PTE_PRESENT ≠ 0 ∧
      s'.mem (tbl, i) &&& PTE_ADDR_MASK = a ∧
      (∀ k : Nat × Nat, k ≠ (tbl, i) → k.1 ≠ a → s'.mem k = s.mem k) := by
  rw [getOrCreate] at h
  split at h
  · rename_i hpres
    simp only [Option.some.injEq, Prod.mk.injEq] at h
    obtain ⟨rfl, rfl⟩ := h
    exact ⟨rfl, rfl, le_refl _, hpres, rfl, fun k _ _ => rfl⟩
  · rename_i hnpres
    cases hc : createPageTable s with
    | none => rw [hc] at h; simp at h
    | some ts =>
      obtain ⟨t, s1⟩ := ts
      rw [hc] at h
      simp only [Option.some.injEq, Prod.mk.injEq] at h
      obtain ⟨rfl, rfl⟩ := h
      obtain ⟨halloc, hal, hlt, hroot, htotp, hfree, hmem⟩ := createPageTable_some hc
      have ht64 : t < 2 ^ 64 := by
        have h1 : s.pmm.total_pages * 4096 ≤ 2 ^ 20 * 4096 := by
          exact Nat.mul_le_mul_right 4096 htot
        have h2 : (2 ^ 20 * 4096 : Nat) ≤ 2 ^ 64 := by norm_num
        omega
      refine ⟨hroot, htotp, (show s1.pmm.free_pages ≤ s.pmm.free_pages by omega), ?_, ?_, ?_⟩
      · show writeEntry s1.mem (tbl, i) (t ||| flags ||| PTE_PRESENT) (tbl, i) &&& PTE_PRESENT ≠ 0
        rw [writeEntry, if_pos rfl]
        exact entry_present t flags
      · show writeEntry s1.mem (tbl, i) (t ||| flags ||| PTE_PRESENT) (tbl, i) &&& PTE_ADDR_MASK = t
        rw [writeEntry, if_pos rfl]
        exact entry_and_addr_mask hal ht64 hf
      · intro k hk hka
        show writeEntry s1.mem (tbl, i) (t ||| flags ||| PTE_PRESENT) k = s.mem k
        rw [writeEntry, if_neg hk, hmem, zeroTable]
        exact if_neg (fun hcon => hka hcon.1)

/-- Specification of the get-or-create step when the entry was not
present: the next-level node comes fresh from pmm_alloc_page, the
installed entry is literally node | flags | PTE_PRESENT (note: no
unconditional PTE_WRITABLE), and the new node is zeroed. -/
theorem getOrCreate_notPresent {s : VMMState} {tbl i flags a : Nat} {s' : VMMState}
    (htot : s.pmm.total_pages ≤ 2 ^ 20)
    (hnp : s.mem (tbl, i) &&& PTE_PRESENT = 0)
    (h : getOrCreate s tbl i flags = some (a, s')) :
    pmmAllocPage s.pmm = (some a, s'.pmm) ∧
      s'.mem (tbl, i) = a ||| flags ||| 1 ∧
      a % 4096 = 0 ∧ a < 2 ^ 32 ∧
      (∀ j, j < 512 → (tbl, i) ≠ (a, j) → s'.mem (a, j) = 0) := by
  rw [getOrCreate] at h
  split at h
  · rename_i hpres
    exact absurd hnp hpres
  · cases hc : createPageTable s with
    | none => rw [hc] at h; simp at h
    | some ts =>
      obtain ⟨t, s1⟩ := ts
      rw [hc] at h
      simp only [Option.some.injEq, Prod.mk.injEq] at h
      obtain ⟨rfl, rfl⟩ := h
      obtain ⟨halloc, hal, hlt, hroot, htotp, hfree, hmem⟩ := createPageTable_some hc
      have ht32 : t < 2 ^ 32 := by
        have h1 : s.pmm.total_pages * 4096 ≤ 2 ^ 20 * 4096 := by
          exact Nat.mul_le_mul_right 4096 htot
        have h2 : (2 ^ 20 * 4096 : Nat) = 2 ^ 32 := by norm_num
        omega
      refine ⟨halloc, ?_, hal, ht32, ?_⟩
      · show writeEntry s1.mem (tbl, i) (t ||| flags ||| PTE_PRESENT) (tbl, i) = t ||| flags ||| 1
        rw [writeEntry, if_pos rfl]
        rfl
      · intro j hj hk
        have hkey : ((t, j) : Nat × Nat) ≠ (tbl, i) := fun hcon => hk hcon.symm
        show writeEntry s1.mem (tbl, i) (t ||| flags ||| PTE_PRESENT) (t, j) = 0
        rw [writeEntry, if_neg hkey, hmem, zeroTable]
        exact if_pos ⟨rfl, hj⟩

/-- Claim C1 (amended): for a page-aligned virtual address v, a
page-aligned physical address p below 2^64, and a flag set f drawn from
the low twelve flag bits (so not containing PTE_NX), if vmm_map_page
succeeds and the four page-table nodes of the walk of v are pairwise
distinct frames (as in any well-formed table tree), then
vmm_get_phys_addr(v) immediately afterwards returns exactly p.  The
claim as frozen, which quantifies over every flag set, fails for flag
sets containing PTE_NX; see the counterexample. -/
theorem vmm_map_page_then_translate (s : VMMState) (v p f : Nat)
    (hva : v % 4096 = 0) (hpa : p % 4096 = 0) (hp : p < 2 ^ 64)
    (hf : f < 4096) (htot : s.pmm.total_pages ≤ 2 ^ 20)
    (hdist : (mapPageFrames s v f).Pairwise (fun x y => x ≠ y))
    (hmap : (vmmMapPage s v p f).1 = true) :
    vmmGetPhysAddr (vmmMapPage s v p f).2 v = p := by
  cases h1 : getOrCreate s s.root (pml4Index v) f with
  | none =>
    simp only [vmmMapPage, h1] at hmap
    exact Bool.noConfusion hmap
  | some a2s1 =>
    obtain ⟨a2, s1⟩ := a2s1
    cases h2 : getOrCreate s1 a2 (pdpIndex v) f with
    | none =>
      simp only [vmmMapPage, h1, h2] at hmap
      exact Bool.noConfusion hmap
    | some a3s2 =>
      obtain ⟨a3, s2⟩ := a3s2
      cases h3 : getOrCreate s2 a3 (pdIndex v) f with
      | none =>
        simp only [vmmMapPage, h1, h2, h3] at hmap
        exact Bool.noConfusion hmap
      | some a4s3 =>
        obtain ⟨a4, s3⟩ := a4s3
        have hres : (vmmMapPage s v p f).2 =
            {s3 with mem := writeEntry s3.mem (a4, ptIndex v) (p ||| f ||| PTE_PRESENT)} := by
          simp only [vmmMapPage, h1, h2, h3]
        have hframes : mapPageFrames s v f = [s.root, a2, a3, a4] := by
          simp only [mapPageFrames, h1, h2, h3]
        rw [hframes] at hdist
        simp only [List.pairwise_cons, List.mem_cons, List.mem_singleton,
          List.not_mem_nil, List.Pairwise.nil, forall_eq_or_imp, forall_eq] at hdist
        obtain ⟨⟨hra2, hra3, hra4, -⟩, ⟨ha23, ha24, -⟩, ⟨ha34, -⟩, -⟩ := hdist
        obtain ⟨hroot1, htot1, _, hpres1, hmask1, hunch1⟩ := getOrCreate_some hf htot h1
        have htotA : s1.pmm.total_pages ≤ 2 ^ 20 := htot1 ▸ htot
        obtain ⟨hroot2, htot2, _, hpres2, hmask2, hunch2⟩ := getOrCreate_some hf htotA h2
        have htotB : s2.pmm.total_pages ≤ 2 ^ 20 := htot2 ▸ htotA
        obtain ⟨hroot3, htot3, _, hpres3, hmask3, hunch3⟩ := getOrCreate_some hf htotB h3
        have hrootRes : s3.root = s.root := by rw [hroot3, hroot2, hroot1]
        have hE4 : writeEntry s3.mem (a4, ptIndex v) (p ||| f ||| PTE_PRESENT)
            (s.root, pml4Index v) = s1.mem (s.root, pml4Index v) := by
          rw [writeEntry, if_neg (fun hk => hra4 (congrArg Prod.fst hk))]
          rw [hunch3 _ (fun hk => hra3 (congrArg Prod.fst hk)) hra4]
          rw [hunch2 _ (fun hk => hra2 (congrArg Prod.fst hk)) hra3]
        have hE3 : writeEntry s3.mem (a4, ptIndex v) (p ||| f ||| PTE_PRESENT)
            (a2, pdpIndex v) = s2.mem (a2, pdpIndex v) := by
          rw [writeEntry, if_neg (fun hk => ha24 (congrArg Prod.fst hk))]
          rw [hunch3 _ (fun hk => ha23 (congrArg Prod.fst hk)) ha24]
        have hE2 : writeEntry s3.mem (a4, ptIndex v) (p ||| f ||| PTE_PRESENT)
            (a3, pdIndex v) = s3.mem (a3, pdIndex v) := by
          rw [writeEntry, if_neg (fun hk => ha34 (congrArg Prod.fst hk))]
        have hE1 : writeEntry s3.mem (a4, ptIndex v) (p ||| f ||| PTE_PRESENT)
            (a4, ptIndex v) = p ||| f ||| PTE_PRESENT := by
          rw [writeEntry, if_pos rfl]
        rw [hres]
        show vmmGetPhysAddr
          {s3 with mem := writeEntry s3.mem (a4, ptIndex v) (p ||| f ||| PTE_PRESENT)} v = p
        rw [vmmGetPhysAddr]
        simp only [hrootRes, hE4, hmask1, hE3, hmask2, hE2, hmask3, hE1]
        rw [if_neg hpres1, if_neg hpres2, if_neg hpres3, if_neg (entry_present p f)]
        rw [entry_and_addr_mask hpa hp hf]
        rw [and_fff_eq_mod, hva, Nat.or_zero]

/-- Counterexample to claim C1 as frozen: with the flag set
f = PTE_NX (a defined flag, passed by sys_mmap for non-executable
mappings), vmm_map_page(0, 0x5000, PTE_NX) succeeds on the concrete
state exVMM, but vmm_get_phys_addr(0) then returns 0, not 0x5000: the
NX bit survives the & ~0xFFF mask, so the walk of vmm_get_phys_addr
reads the next level at a poisoned table address. -/
theorem vmm_map_page_nx_counterexample :
    (vmmMapPage exVMM 0 0x5000 PTE_NX).1 = true ∧
      vmmGetPhysAddr (vmmMapPage exVMM 0 0x5000 PTE_NX).2 0 = 0 ∧
      (0 : Nat) ≠ 0x5000 := by
  refine ⟨by decide, by decide, by decide⟩

/-- Witness for vmm_map_page_then_translate: on the concrete state
exVMM, mapping virtual 0 to physical 0x5000 with flags
PTE_PRESENT | PTE_WRITABLE succeeds and translates back to 0x5000. -/
theorem vmm_map_page_then_translate_witness :
    (vmmMapPage exVMM 0 0x5000 3).1 = true ∧
      vmmGetPhysAddr (vmmMapPage exVMM 0 0x5000 3).2 0 = 0x5000 :=
  ⟨by decide, vmm_map_page_then_translate exVMM 0 0x5000 3 (by decide) (by decide)
    (by decide) (by decide) (by decide) (by decide) (by decide)⟩

/-- Claim C6 (amended): when vmm_map_page(virt, phys, flags) encounters
a non-present entry at an intermediate level (shown here at the PML4
level that the claim cites), it allocates a new node from the PMM,
zeroes it, and installs the intermediate entry with bits
PRESENT | flags - not PRESENT | WRITABLE | flags: the source writes
virt_to_phys(node) | flags | PTE_PRESENT, so WRITABLE is set only when
flags contains it.  Stated for flag sets within the low twelve bits on
an aliasing-free walk, as in vmm_map_page_then_translate. -/
theorem vmm_map_page_intermediate_install (s : VMMState) (v p f : Nat)
    (hf : f < 4096) (htot : s.pmm.total_pages ≤ 2 ^ 20)
    (hdist : (mapPageFrames s v f).Pairwise (fun x y => x ≠ y))
    (hnp : s.mem (s.root, pml4Index v) &&& PTE_PRESENT = 0)
    (hmap : (vmmMapPage s v p f).1 = true) :
    ∃ a2, (pmmAllocPage s.pmm).1 = some a2 ∧ a2 % 4096 = 0 ∧
      (vmmMapPage s v p f).2.mem (s.root, pml4Index v) = a2 ||| f ||| 1 ∧
      (vmmMapPage s v p f).2.mem (s.root, pml4Index v) &&& 4095 = f ||| 1 ∧
      (∀ j, j < 512 → j ≠ pdpIndex v → (vmmMapPage s v p f).2.mem (a2, j) = 0) := by
  cases h1 : getOrCreate s s.root (pml4Index v) f with
  | none =>
    simp only [vmmMapPage, h1] at hmap
    exact Bool.noConfusion hmap
  | some a2s1 =>
    obtain ⟨a2, s1⟩ := a2s1
    cases h2 : getOrCreate s1 a2 (pdpIndex v) f with
    | none =>
      simp only [vmmMapPage, h1, h2] at hmap
      exact Bool.noConfusion hmap
    | some a3s2 =>
      obtain ⟨a3, s2⟩ := a3s2
      cases h3 : getOrCreate s2 a3 (pdIndex v) f with
      | none =>
        simp only [vmmMapPage, h1, h2, h3] at hmap
        exact Bool.noConfusion hmap
      | some a4s3 =>
        obtain ⟨a4, s3⟩ := a4s3
        have hres : (vmmMapPage s v p f).2 =
            {s3 with mem := writeEntry s3.mem (a4, ptIndex v) (p ||| f ||| PTE_PRESENT)} := by
          simp only [vmmMapPage, h1, h2, h3]
        have hframes : mapPageFrames s v f = [s.root, a2, a3, a4] := by
          simp only [mapPageFrames, h1, h2, h3]
        rw [hframes] at hdist
        simp only [List.pairwise_cons, List.mem_cons, List.mem_singleton,
          List.not_mem_nil, List.Pairwise.nil, forall_eq_or_imp, forall_eq] at hdist
        obtain ⟨⟨hra2, hra3, hra4, -⟩, ⟨ha23, ha24, -⟩, ⟨ha34, -⟩, -⟩ := hdist
        obtain ⟨halloc, hentry, hal2, _, hzero⟩ := getOrCreate_notPresent htot hnp h1
        obtain ⟨hroot1, htot1, _, _, _, hunch1⟩ := getOrCreate_some hf htot h1
        have htotA : s1.pmm.total_pages ≤ 2 ^ 20 := htot1 ▸ htot
        obtain ⟨hroot2, htot2, _, hpres2, hmask2, hunch2⟩ := getOrCreate_some hf htotA h2
        have htotB : s2.pmm.total_pages ≤ 2 ^ 20 := htot2 ▸ htotA
        obtain ⟨hroot3, htot3, _, hpres3, hmask3, hunch3⟩ := getOrCreate_some hf htotB h3
        have hE4 : writeEntry s3.mem (a4, ptIndex v) (p ||| f ||| PTE_PRESENT)
            (s.root, pml4Index v) = s1.mem (s.root, pml4Index v) := by
          rw [writeEntry, if_neg (fun hk => hra4 (congrArg Prod.fst hk))]
          rw [hunch3 _ (fun hk => hra3 (congrArg Prod.fst hk)) hra4]
          rw [hunch2 _ (fun hk => hra2 (congrArg Prod.fst hk)) hra3]
        refine ⟨a2, by rw [halloc], hal2, ?_, ?_, ?_⟩
        · rw [hres]
          show writeEntry s3.mem (a4, ptIndex v) (p ||| f ||| PTE_PRESENT)
            (s.root, pml4Index v) = a2 ||| f ||| 1
          rw [hE4, hentry]
        · rw [hres]
          show writeEntry s3.mem (a4, ptIndex v) (p ||| f ||| PTE_PRESENT)
            (s.root, pml4Index v) &&& 4095 = f ||| 1
          rw [hE4, hentry]
          show (a2 ||| f ||| PTE_PRESENT) &&& 4095 = f ||| 1
          exact entry_and_fff hal2 hf
        · intro j hj hji
          rw [hres]
          show writeEntry s3.mem (a4, ptIndex v) (p ||| f ||| PTE_PRESENT) (a2, j) = 0
          rw [writeEntry, if_neg (fun hk => ha24 (congrArg Prod.fst hk))]
          rw [hunch3 _ (fun hk => ha23 (congrArg Prod.fst hk)) ha24]
          rw [hunch2 _ (fun hk => hji (congrArg Prod.snd hk)) ha23]
          exact hzero j hj (fun hk => hra2 (congrArg Prod.fst hk))

/-- Counterexample to claim C6 as frozen: on the concrete state exVMM
(the PML4 slot for virtual 0 is non-present) the call
vmm_map_page(0, 0x5000, 0) succeeds, and the installed PML4 entry has
flag bits 1 (PRESENT only) with the WRITABLE bit clear, whereas the
claim demands exactly PRESENT | WRITABLE | flags = 3. -/
theorem vmm_map_page_intermediate_counterexample :
    exVMM.mem (exVMM.root, pml4Index 0) &&& PTE_PRESENT = 0 ∧
      (vmmMapPage exVMM 0 0x5000 0).1 = true ∧
      (vmmMapPage exVMM 0 0x5000 0).2.mem (exVMM.root, pml4Index 0) &&& 4095 = 1 ∧
      (vmmMapPage exVMM 0 0x5000 0).2.mem (exVMM.root, pml4Index 0) &&& PTE_WRITABLE = 0 ∧
      (1 : Nat) ≠ PTE_PRESENT ||| PTE_WRITABLE ||| 0 := by
  refine ⟨by decide, by decide, by decide, by decide, by decide⟩

/-- Witness for vmm_map_page_intermediate_install: on exVMM with
flags = 3, the PML4 slot for virtual 0 is non-present, the map succeeds,
and the installed entry carries flag bits 3 | PRESENT. -/
theorem vmm_map_page_intermediate_install_witness :
    exVMM.mem (exVMM.root, pml4Index 0) &&& PTE_PRESENT = 0 ∧
      (∃ a2, (pmmAllocPage exVMM.pmm).1 = some a2 ∧ a2 % 4096 = 0 ∧
        (vmmMapPage exVMM 0 0x5000 3).2.mem (exVMM.root, pml4Index 0) = a2 ||| 3 ||| 1 ∧
        (vmmMapPage exVMM 0 0x5000 3).2.mem (exVMM.root, pml4Index 0) &&& 4095 = 3 ||| 1 ∧
        (∀ j, j < 512 → j ≠ pdpIndex 0 →
          (vmmMapPage exVMM 0 0x5000 3).2.mem (a2, j) = 0)) :=
  ⟨by decide, vmm_map_page_intermediate_install exVMM 0 0x5000 3 (by decide)
    (by decide) (by decide) (by decide) (by decide)⟩

/-- Claim C10: vmm_unmap_page(v) modifies at most the single level-1
leaf location for v (the pair unmapLeafKey: the PT frame reached by the
walk and the PT index of v): the PMM state - hence the set of allocated
page-table frames - and the root are unchanged, every other memory
location is unchanged, a walk that hits a non-present level returns
false and changes nothing at all, and on success the leaf is cleared. -/
theorem vmm_unmap_page_frame_effect (s : VMMState) (v : Nat) :
    (vmmUnmapPage s v).2.pmm = s.pmm ∧
      (vmmUnmapPage s v).2.root = s.root ∧
      (∀ k : Nat × Nat, k ≠ unmapLeafKey s v → (vmmUnmapPage s v).2.mem k = s.mem k) ∧
      ((vmmUnmapPage s v).1 = false → (vmmUnmapPage s v).2 = s) ∧
      ((vmmUnmapPage s v).1 = true →
        (vmmUnmapPage s v).2.mem (unmapLeafKey s v) = 0) := by
  simp only [vmmUnmapPage, unmapLeafKey]
  split
  · exact ⟨rfl, rfl, fun k hk => rfl, fun _ => rfl, fun hc => Bool.noConfusion hc⟩
  · split
    · exact ⟨rfl, rfl, fun k hk => rfl, fun _ => rfl, fun hc => Bool.noConfusion hc⟩
    · split
      · exact ⟨rfl, rfl, fun k hk => rfl, fun _ => rfl, fun hc => Bool.noConfusion hc⟩
      · split
        · exact ⟨rfl, rfl, fun k hk => rfl, fun _ => rfl, fun hc => Bool.noConfusion hc⟩
        · refine ⟨rfl, rfl, ?_, fun hc => Bool.noConfusion hc, fun _ => ?_⟩
          · intro k hk
            show writeEntry s.mem _ 0 k = s.mem k
            rw [writeEntry, if_neg hk]
          · show writeEntry s.mem _ 0 _ = 0
            rw [writeEntry, if_pos rfl]

/-- Witness for vmm_unmap_page_frame_effect: on exVMM the walk of
virtual 0 hits a non-present PML4 entry, so the unmap reports false and
the state is exactly the original one; the PMM is untouched. -/
theorem vmm_unmap_page_frame_effect_witness :
    (vmmUnmapPage exVMM 0).2.pmm = exVMM.pmm ∧
      (vmmUnmapPage exVMM 0).1 = false ∧
      (vmmUnmapPage exVMM 0).2 = exVMM :=
  ⟨(vmm_unmap_page_frame_effect exVMM 0).1, by decide,
    (vmm_unmap_page_frame_effect exVMM 0).2.2.2.1 (by decide)⟩


/-! ## Theorems: scheduler -/

/-- Claim C2 (code evidence): the scheduler never assigns
PROCESS_STATE_RUNNING.  From the boot state, create-and-add a process
(pid 1), pop it with scheduler_next and hand it the CPU with
process_switch - the path sys_exit and scheduler_tick take.  The
process is now current, yet its state tag is still READY:
PROCESS_STATE_RUNNING is dead in the source (no assignment anywhere),
so the claimed invariant "the current process has state RUNNING" cannot
hold at any point. -/
theorem scheduler_switch_leaves_ready :
    (schedulerNext (schedulerAdd exSched0 1)).1 = some 1 ∧
      (processSwitch (schedulerNext (schedulerAdd exSched0 1)).2 1).current = some 1 ∧
      ((processSwitch (schedulerNext (schedulerAdd exSched0 1)).2 1).procs 1).state =
        ProcState.READY ∧
      ProcState.READY ≠ ProcState.RUNNING := by
  refine ⟨by decide, by decide, by decide, by decide⟩

/-! ## Theorems: pipe object -/

/-- The write loop of pipe_write when the whole request fits in the
free space: every byte is stored, the byte count grows by the request,
and the reference counts are untouched. -/
theorem pipeWriteLoop_fits (b : Nat → Nat) :
    ∀ (r : Nat) (p : TtyPipe) (bw : Nat), p.count + r ≤ PIPE_BUFFER_SIZE →
      ∃ p2, pipeWriteLoop p b r bw = some (((bw + r : Nat) : Int), p2) ∧
        p2.count = p.count + r ∧ p2.readers = p.readers ∧ p2.writers = p.writers := by
  intro r
  induction r with
  | zero =>
    intro p bw h
    exact ⟨p, by simp [pipeWriteLoop], by omega, rfl, rfl⟩
  | succ r ih =>
    intro p bw h
    have hB : PIPE_BUFFER_SIZE = 4096 := rfl
    have hne : ¬(p.count = PIPE_BUFFER_SIZE) := by omega
    obtain ⟨p2, heq, hc, hr, hw⟩ := ih
      {p with buffer := fun i => if i = p.write_pos then b bw else p.buffer i,
              write_pos := (p.write_pos + 1) &&& (PIPE_BUFFER_SIZE - 1),
              count := p.count + 1}
      (bw + 1) (by simp only []; omega)
    refine ⟨p2, ?_, by simp only [] at hc; omega, hr, hw⟩
    rw [pipeWriteLoop, if_neg hne, heq]
    congr 2
    omega

/-- The write loop of pipe_write when the request exceeds the free
space and a reader exists: the loop fills the buffer and then spins
forever on the full-buffer busy wait. -/
theorem pipeWriteLoop_overflow (b : Nat → Nat) :
    ∀ (r : Nat) (p : TtyPipe) (bw : Nat), p.readers ≠ 0 →
      p.count ≤ PIPE_BUFFER_SIZE → PIPE_BUFFER_SIZE < p.count + r →
      pipeWriteLoop p b r bw = none := by
  intro r
  induction r with
  | zero =>
    intro p bw hrd hle hlt
    omega
  | succ r ih =>
    intro p bw hrd hle hlt
    by_cases hfull : p.count = PIPE_BUFFER_SIZE
    · rw [pipeWriteLoop, if_pos hfull, if_neg hrd]
    · have hB : PIPE_BUFFER_SIZE = 4096 := rfl
      rw [pipeWriteLoop, if_neg hfull]
      exact ih _ (bw + 1) hrd (by simp only []; omega) (by simp only []; omega)

/-- Claim C3 (amended): pipe_write on a writable pipe fails with the
generic error -1 (not -EPIPE; nothing in the kernel converts it) when
readers == 0; with readers present it stores the bytes and returns the
count when the whole request fits in the free space, and busy-waits
forever (never returning) once the buffer is full while bytes remain,
instead of stopping at what fits. -/
theorem pipe_write_contract (p : TtyPipe) (b : Nat → Nat) (n : Nat)
    (hw : p.state &&& PIPE_STATE_WRITABLE ≠ 0) :
    (p.readers = 0 → pipeWrite p (some b) n = some (-1, p)) ∧
      (p.readers ≠ 0 → p.count + n ≤ PIPE_BUFFER_SIZE →
        ∃ p2, pipeWrite p (some b) n = some (((n : Nat) : Int), p2) ∧
          p2.count = p.count + n ∧ p2.readers = p.readers ∧ p2.writers = p.writers) ∧
      (p.readers ≠ 0 → p.count ≤ PIPE_BUFFER_SIZE → PIPE_BUFFER_SIZE < p.count + n →
        pipeWrite p (some b) n = none) := by
  refine ⟨?_, ?_, ?_⟩
  · intro h0
    rw [pipeWrite, if_neg hw, if_pos h0]
  · intro hrd hfits
    obtain ⟨p2, heq, hc, hr, hwr⟩ := pipeWriteLoop_fits b n p 0 hfits
    refine ⟨p2, ?_, hc, hr, hwr⟩
    rw [pipeWrite, if_neg hw, if_neg hrd, heq]
    norm_num
  · intro hrd hle hlt
    rw [pipeWrite, if_neg hw, if_neg hrd]
    exact pipeWriteLoop_overflow b n p 0 hrd hle hlt

/-- Counterexample to claim C3 as frozen: writing one byte to a
writable pipe with zero readers returns -1, which is not -EPIPE (-32);
the tty layer reports the generic error and sys_write never converts
it (its own pipe structure has no reader count at all). -/
theorem pipe_write_no_readers_counterexample :
    exPipeNoReaders.readers = 0 ∧
      (pipeWrite exPipeNoReaders (some (fun _ => 65)) 1).map Prod.fst = some (-1) ∧
      (-1 : Int) ≠ -EPIPE := by
  refine ⟨rfl, rfl, by decide⟩

/-- Witness for pipe_write_contract: a two-byte write into an empty
open pipe with one reader succeeds and stores both bytes. -/
theorem pipe_write_contract_witness :
    exPipeOpen.state &&& PIPE_STATE_WRITABLE ≠ 0 ∧ exPipeOpen.readers ≠ 0 ∧
      exPipeOpen.count + 2 ≤ PIPE_BUFFER_SIZE ∧
      (∃ p2, pipeWrite exPipeOpen (some (fun _ => 65)) 2 = some (((2 : Nat) : Int), p2) ∧
        p2.count = exPipeOpen.count + 2 ∧ p2.readers = exPipeOpen.readers ∧
        p2.writers = exPipeOpen.writers) :=
  ⟨by decide, by decide, by decide,
    (pipe_write_contract exPipeOpen (fun _ => 65) 2 (by decide)).2.1 (by decide) (by decide)⟩

/-- Claim C9 (amended): pipe_read on an empty readable pipe stores no
bytes and returns 0 (end of stream) when writers == 0 or the EOF latch
is set; but when writers > 0 and no EOF it does NOT return 0: the
empty-pipe busy wait has no sleep and no state change, so the call
never returns. -/
theorem pipe_read_empty_contract (p : TtyPipe) (n : Nat)
    (hr : p.state &&& PIPE_STATE_READABLE ≠ 0) (hempty : p.count = 0) :
    ((p.writers = 0 ∨ p.state &&& PIPE_STATE_EOF ≠ 0) →
        pipeRead p false n = some (0, p, [])) ∧
      (p.writers ≠ 0 → p.state &&& PIPE_STATE_EOF = 0 → pipeRead p false n = none) := by
  constructor
  · intro hcond
    rw [pipeRead, if_neg Bool.false_ne_true, if_neg hr, if_pos hempty, if_pos hcond]
  · intro hwr hEOF
    rw [pipeRead, if_neg Bool.false_ne_true, if_neg hr, if_pos hempty, if_neg]
    intro hcon
    rcases hcon with hc | hc
    · exact hwr hc
    · exact hc hEOF

/-- Counterexample to claim C9 as frozen: on an empty readable pipe
with one writer and no EOF, pipe_read(1) does not return zero bytes -
it never returns at all (the busy-wait loop body changes nothing). -/
theorem pipe_read_busy_wait_counterexample :
    exPipeOpen.count = 0 ∧ 0 < exPipeOpen.writers ∧
      pipeRead exPipeOpen false 1 = none := by
  refine ⟨rfl, by decide, rfl⟩

/-- Witness for pipe_read_empty_contract: after the last writer is
released (EOF latched) a read of an empty pipe returns 0. -/
theorem pipe_read_empty_contract_witness :
    exPipeEOF.state &&& PIPE_STATE_READABLE ≠ 0 ∧ exPipeEOF.count = 0 ∧
      pipeRead exPipeEOF false 5 = some (0, exPipeEOF, []) :=
  ⟨by decide, rfl, (pipe_read_empty_contract exPipeEOF 5 (by decide) rfl).1 (Or.inl rfl)⟩

/-! ## Theorems: system-call layer -/

/-- Claim C4 (amended): nothing preconfigures descriptors 0, 1, 2: the
fd table starts with every slot empty, the first alloc_fd returns slot
0 (not 3 or above), and reads or writes on the console descriptor
numbers fail with -EBADF until the slots happen to be occupied, because
the table check precedes the console special cases in sys_read and
sys_write. -/
theorem fd_console_not_preconfigured (ext : Ext) (count : Nat) (data : List Nat) :
    (allocFd initSysState true).1 = 0 ∧
      (sysRead initSysState ext 0 false count).1 = -EBADF ∧
      (sysWrite initSysState ext 1 false data).1 = -EBADF ∧
      (sysWrite initSysState ext 2 false data).1 = -EBADF := by
  refine ⟨by decide, rfl, rfl, rfl⟩

/-- Counterexample to claim C4 as frozen: at kernel start the slots 0,
1, 2 are empty and the very first descriptor allocated is 0, not at
least 3. -/
theorem fd_first_alloc_counterexample :
    initSysState.fds 0 = none ∧ initSysState.fds 1 = none ∧
      initSysState.fds 2 = none ∧
      (allocFd initSysState true).1 = 0 ∧ ¬(3 ≤ (allocFd initSysState true).1) := by
  refine ⟨rfl, rfl, rfl, by decide, by decide⟩

/-- Claim C5 (amended): pointer arguments of sys_read and sys_write are
validated only against NULL, and the failure is reported as -EINVAL,
not -EFAULT; no address-space presence check exists anywhere in the
dispatcher. -/
theorem syscall_null_pointer_einval (s : SysState) (ext : Ext) (fd : Int)
    (count : Nat) (data : List Nat) :
    (sysRead s ext fd true count).1 = -EINVAL ∧
      (sysWrite s ext fd true data).1 = -EINVAL :=
  ⟨rfl, rfl⟩

/-- Counterexample to claim C5 as frozen: a read with an invalid (null)
buffer pointer returns -EINVAL, which differs from the claimed -EFAULT;
EFAULT (14) is defined in syscalls.h but never returned by any code
path. -/
theorem syscall_null_pointer_not_efault :
    (sysRead initSysState exExt 3 true 1).1 = -EINVAL ∧
      (sysWrite initSysState exExt 3 true [7]).1 = -EINVAL ∧
      (-EINVAL : Int) ≠ -EFAULT := by
  refine ⟨rfl, rfl, by decide⟩


/-! ## Theorems: kernel heap -/

theorem add64_eq {a b : Nat} (h : a + b < 2 ^ 64) : add64 a b = a + b := by
  unfold add64
  omega

theorem sub64_eq {a b : Nat} (ha : a < 2 ^ 64) (hb : b ≤ a) : sub64 a b = a - b := by
  unfold sub64
  omega

/-- The size_t expression x & ~7 rounds down to a multiple of 8. -/
theorem and_mask8_eq {x : Nat} (hx : x < 2 ^ 64) :
    x &&& (2 ^ 64 - 8) = x / 8 * 8 := by
  have hm : (2 : Nat) ^ 64 - 8 = (2 ^ 61 - 1) <<< 3 := by decide
  have hr : x / 8 * 8 = (x >>> 3) <<< 3 := by
    rw [Nat.shiftRight_eq_div_pow, Nat.shiftLeft_eq]
  apply Nat.eq_of_testBit_eq
  intro i
  rw [hm, hr, Nat.testBit_land, Nat.testBit_shiftLeft, Nat.testBit_shiftLeft,
    Nat.testBit_two_pow_sub_one, Nat.testBit_shiftRight]
  rcases Nat.lt_or_ge i 3 with h3 | h3
  · simp [Nat.not_le.mpr h3]
  · have he : 3 + (i - 3) = i := by omega
    rcases Nat.lt_or_ge i 64 with h64 | h64
    · have h61 : i - 3 < 61 := by omega
      simp [h3, h61, he]
    · have h61 : ¬(i - 3 < 61) := by omega
      have hxi : x.testBit i = false := by
        apply Nat.testBit_lt_two_pow
        calc x < 2 ^ 64 := hx
          _ ≤ 2 ^ i := Nat.pow_le_pow_right (by norm_num) h64
      simp [h3, h61, he, hxi]

/-- The rounded request size of heap_alloc equals the mathematical
round-up when the size_t addition does not wrap. -/
theorem heap_size_align {n : Nat} (hn : n + 7 < 2 ^ 64) :
    ((n + 7) % 2 ^ 64) &&& (2 ^ 64 - 8) = roundUp8 n := by
  rw [Nat.mod_eq_of_lt hn, and_mask8_eq hn, roundUp8]

theorem roundUp8_le {n : Nat} : roundUp8 n ≤ n + 7 := by
  unfold roundUp8
  have h1 := Nat.div_add_mod (n + 7) 8
  omega

theorem le_roundUp8 {n : Nat} : n ≤ roundUp8 n := by
  unfold roundUp8
  have h1 := Nat.div_add_mod (n + 7) 8
  have h2 : (n + 7) % 8 < 8 := Nat.mod_lt _ (by decide)
  omega

/-- A successful get-or-create step never increases the free count. -/
theorem getOrCreate_free {s : VMMState} {tbl i flags a : Nat} {s2 : VMMState}
    (h : getOrCreate s tbl i flags = some (a, s2)) :
    s2.pmm.free_pages ≤ s.pmm.free_pages := by
  rw [getOrCreate] at h
  split at h
  · simp only [Option.some.injEq, Prod.mk.injEq] at h
    obtain ⟨rfl, rfl⟩ := h
    exact le_refl _
  · cases hc : createPageTable s with
    | none => rw [hc] at h; simp at h
    | some ts =>
      obtain ⟨t, s1⟩ := ts
      rw [hc] at h
      simp only [Option.some.injEq, Prod.mk.injEq] at h
      obtain ⟨rfl, rfl⟩ := h
      obtain ⟨_, _, _, _, _, hfree, _⟩ := createPageTable_some hc
      show s1.pmm.free_pages ≤ s.pmm.free_pages
      omega

/-- vmm_map_page never increases the free count, whatever it returns. -/
theorem vmmMapPage_freeLe (s : VMMState) (v p f : Nat) :
    (vmmMapPage s v p f).2.pmm.free_pages ≤ s.pmm.free_pages := by
  cases h1 : getOrCreate s s.root (pml4Index v) f with
  | none => simp only [vmmMapPage, h1]; exact le_refl _
  | some a2s1 =>
    obtain ⟨a2, s1⟩ := a2s1
    have f1 := getOrCreate_free h1
    cases h2 : getOrCreate s1 a2 (pdpIndex v) f with
    | none => simp only [vmmMapPage, h1, h2]; exact f1
    | some a3s2 =>
      obtain ⟨a3, s2⟩ := a3s2
      have f2 := getOrCreate_free h2
      cases h3 : getOrCreate s2 a3 (pdIndex v) f with
      | none => simp only [vmmMapPage, h1, h2, h3]; omega
      | some a4s3 =>
        obtain ⟨a4, s3⟩ := a4s3
        have f3 := getOrCreate_free h3
        simp only [vmmMapPage, h1, h2, h3]
        show s3.pmm.free_pages ≤ s.pmm.free_pages
        omega

/-- A page-mapping loop of expand_heap that succeeds had at least as
many free frames as pages to map: every iteration consumes one frame
for the page itself and possibly more for page tables. -/
theorem expandMapLoop_bound {base : Nat} :
    ∀ (k : Nat) (vmm : VMMState) (i : Nat) (vmm2 : VMMState),
      expandMapLoop vmm base i k = (true, vmm2) → k ≤ vmm.pmm.free_pages := by
  intro k
  induction k with
  | zero => intro vmm i vmm2 _; exact Nat.zero_le _
  | succ k ih =>
    intro vmm i vmm2 h
    rw [expandMapLoop] at h
    cases ha : pmmAllocPage vmm.pmm with
    | mk o pmm1 =>
      rw [ha] at h
      cases o with
      | none => exact absurd (congrArg Prod.fst h) (by simp)
      | some phys =>
        dsimp only at h
        obtain ⟨_, _, _, _, hfree⟩ := pmmAllocPage_some ha
        cases hm : vmmMapPage {vmm with pmm := pmm1} (add64 base (i * HEAP_PAGE_SIZE)) phys
            (PTE_PRESENT ||| PTE_WRITABLE) with
        | mk r vmm3 =>
          rw [hm] at h
          cases r with
          | false => exact absurd (congrArg Prod.fst h) (by simp)
          | true =>
            have hle := vmmMapPage_freeLe {vmm with pmm := pmm1}
              (add64 base (i * HEAP_PAGE_SIZE)) phys (PTE_PRESENT ||| PTE_WRITABLE)
            rw [hm] at hle
            have hk := ih vmm3 (i + 1) vmm2 h
            have hle2 : vmm3.pmm.free_pages ≤ pmm1.free_pages := hle
            omega

/-- The LAST-block walk of expand_heap stays inside the chain. -/
theorem findLastIdx_lt {bs : List HeapBlock} {i : Nat}
    (h : findLastIdx bs = some i) : i < bs.length := by
  induction bs generalizing i with
  | nil => simp [findLastIdx] at h
  | cons b rest ih =>
    rw [findLastIdx] at h
    split at h
    · simp only [Option.some.injEq] at h
      subst h
      simp
    · cases hr : findLastIdx rest with
      | none => rw [hr] at h; simp at h
      | some j =>
        rw [hr] at h
        simp only [Option.some.injEq] at h
        have := ih hr
        simp only [List.length_cons]
        omega

/-- find_free_block returns the index of a FREE block of adequate
size. -/
theorem findFreeBlock_some {bs : List HeapBlock} {need i : Nat}
    (h : findFreeBlock bs need = some i) :
    ∃ b, bs.get? i = some b ∧ need ≤ b.size := by
  induction bs generalizing i with
  | nil => simp [findFreeBlock] at h
  | cons b rest ih =>
    rw [findFreeBlock] at h
    split at h
    · rename_i hcond
      simp only [Option.some.injEq] at h
      subst h
      exact ⟨b, rfl, hcond.2⟩
    · split at h
      · exact absurd h (by simp)
      · cases hr : findFreeBlock rest need with
        | none => rw [hr] at h; simp at h
        | some j =>
          rw [hr] at h
          simp only [Option.some.injEq] at h
          subst h
          obtain ⟨b2, hb2, hs2⟩ := ih hr
          exact ⟨b2, by simpa using hb2, hs2⟩

/-- A successful expand_heap appends (at the returned index) a fresh
block carrying the heap magic whose recorded uint32 size is the exact
page total, at least size + 28, with no truncation: success of the
mapping loop bounds pages_needed by the free-frame count, which is at
most 2^20. -/
theorem expandHeap_some {s : HeapState} {size i : Nat} {s1 : HeapState}
    (hfree : s.vmm.pmm.free_pages ≤ 2 ^ 20) (hsz : size + 4123 < 2 ^ 64)
    (h : expandHeap s size = (some i, s1)) :
    ∃ nb : HeapBlock, s1.heap.get? i = some nb ∧ nb.magic = HEAP_BLOCK_MAGIC ∧
      nb.size < 2 ^ 32 ∧ size + HEAP_HEADER_SIZE ≤ nb.size := by
  have hadd1 : add64 size HEAP_HEADER_SIZE = size + 28 :=
    add64_eq (by show size + 28 < 2 ^ 64; omega)
  have hadd2 : add64 (add64 size HEAP_HEADER_SIZE) (HEAP_PAGE_SIZE - 1) = size + 4123 := by
    rw [hadd1]
    exact add64_eq (by show size + 28 + 4095 < 2 ^ 64; omega)
  rw [expandHeap] at h
  rw [hadd2] at h
  cases hp : pmmAllocPage s.vmm.pmm with
  | mk o pmm1 =>
    rw [hp] at h
    cases o with
    | none => exact absurd (congrArg Prod.fst h) (by simp)
    | some nm =>
      dsimp only at h
      obtain ⟨_, _, _, _, hfr⟩ := pmmAllocPage_some hp
      cases hL : findLastIdx s.heap with
      | none => rw [hL] at h; exact absurd (congrArg Prod.fst h) (by simp)
      | some li =>
        rw [hL] at h
        dsimp only at h
        cases hg : s.heap.get? li with
        | none => rw [hg] at h; exact absurd (congrArg Prod.fst h) (by simp)
        | some last =>
          rw [hg] at h
          dsimp only at h
          cases hm : expandMapLoop {s.vmm with pmm := pmm1}
              (add64 last.addr last.size) 0 ((size + 4123) / HEAP_PAGE_SIZE) with
          | mk r vmm2 =>
            rw [hm] at h
            cases r with
            | false => exact absurd (congrArg Prod.fst h) (by simp)
            | true =>
              have hbound := expandMapLoop_bound _ _ _ _ hm
              have hbound2 : (size + 4123) / 4096 ≤ pmm1.free_pages := hbound
              have hpages : (size + 4123) / HEAP_PAGE_SIZE * HEAP_PAGE_SIZE < 2 ^ 32 := by
                show (size + 4123) / 4096 * 4096 < 2 ^ 32
                have : (size + 4123) / 4096 ≤ 2 ^ 20 - 1 := by omega
                calc (size + 4123) / 4096 * 4096 ≤ (2 ^ 20 - 1) * 4096 :=
                    Nat.mul_le_mul_right 4096 this
                  _ < 2 ^ 32 := by norm_num
              have hge : size + 28 ≤ (size + 4123) / HEAP_PAGE_SIZE * HEAP_PAGE_SIZE := by
                show size + 28 ≤ (size + 4123) / 4096 * 4096
                have h1 := Nat.div_add_mod (size + 4123) 4096
                have h2 : (size + 4123) % 4096 < 4096 := Nat.mod_lt _ (by decide)
                omega
              have h1 := congrArg Prod.fst h
              have h2 := congrArg Prod.snd h
              simp only [Option.some.injEq] at h1 h2
              refine ⟨{ magic := HEAP_BLOCK_MAGIC,
                        size := (size + 4123) / HEAP_PAGE_SIZE * HEAP_PAGE_SIZE % 2 ^ 32,
                        flags := BLOCK_FREE ||| BLOCK_LAST,
                        addr := add64 last.addr last.size }, ?_, rfl, ?_, ?_⟩
              · rw [← h2, ← h1]
                have hlen : (s.heap.take li).length = li := by
                  rw [List.length_take]
                  exact Nat.min_eq_left (Nat.le_of_lt (findLastIdx_lt hL))
                show (s.heap.take li ++ [_, _]).get? (li + 1) = _
                rw [List.get?_append_right (by omega)]
                rw [hlen]
                simp
              · show _ % 2 ^ 32 < 2 ^ 32
                exact Nat.mod_lt _ (by norm_num)
              · show size + 28 ≤ _ % 2 ^ 32
                rw [Nat.mod_eq_of_lt hpages]
                exact hge

/-- The block kept by split_block retains its magic and records a size
of at least size + 28: either the split stores exactly size + 28 (no
uint32 truncation, since the block's size is below 2^32), or the
unsplit block keeps its original adequate size. -/
theorem splitBlock_fst {b : HeapBlock} {size : Nat}
    (hb32 : b.size < 2 ^ 32) (hge : size + HEAP_HEADER_SIZE ≤ b.size) :
    (splitBlock b size).1.magic = b.magic ∧
      size + HEAP_HEADER_SIZE ≤ (splitBlock b size).1.size := by
  have hs28 : size + 28 ≤ b.size := hge
  have hb64 : b.size < 2 ^ 64 := by
    calc b.size < 2 ^ 32 := hb32
      _ ≤ 2 ^ 64 := by norm_num
  have hsub1 : sub64 b.size size = b.size - size := sub64_eq hb64 (by omega)
  have hsub2 : sub64 (sub64 b.size size) HEAP_HEADER_SIZE = b.size - size - 28 := by
    rw [hsub1]
    exact sub64_eq (by omega) (by show 28 ≤ _; omega)
  have hadd : add64 size HEAP_HEADER_SIZE = size + 28 := add64_eq (by show size + 28 < 2 ^ 64; omega)
  rw [splitBlock, hsub2]
  split
  · exact ⟨rfl, hge⟩
  · constructor
    · rfl
    · show size + HEAP_HEADER_SIZE ≤ add64 size HEAP_HEADER_SIZE % 2 ^ 32
      rw [hadd, Nat.mod_eq_of_lt (by omega)]
      exact Nat.le_refl (size + 28)

/-- Record updates that only touch the flags keep the magic and the size. -/
theorem update_magic (x : HeapBlock) (v : Nat) :
    ({x with flags := v}).magic = x.magic := rfl

/-- Record updates that only touch the flags keep the size. -/
theorem update_size (x : HeapBlock) (v : Nat) :
    ({x with flags := v}).size = x.size := rfl

/-- The first component returned by the tail of heap_alloc, once the block
at index i is known. -/
theorem heapAllocFinish_fst {s : HeapState} {i size : Nat} {b : HeapBlock}
    (hb : s.heap.get? i = some b) :
    (heapAllocFinish s i size).1 =
      some {(splitBlock b size).1 with
              flags := (splitBlock b size).1.flags &&& (2 ^ 32 - 2)} := by
  rw [heapAllocFinish, hb]

/-- The block returned by the tail of heap_alloc keeps the heap magic
and records a size of at least size + 28. -/
theorem heapAllocFinish_spec {s : HeapState} {i size : Nat} {b : HeapBlock}
    {b2 : HeapBlock}
    (hb : s.heap.get? i = some b) (hmag : b.magic = HEAP_BLOCK_MAGIC)
    (hb32 : b.size < 2 ^ 32) (hge : size + HEAP_HEADER_SIZE ≤ b.size)
    (h : (heapAllocFinish s i size).1 = some b2) :
    b2.magic = HEAP_BLOCK_MAGIC ∧ size + HEAP_HEADER_SIZE ≤ b2.size := by
  obtain ⟨hm1, hs1⟩ := splitBlock_fst hb32 hge
  rw [heapAllocFinish_fst hb, Option.some.injEq] at h
  subst h
  rw [update_magic, update_size]
  exact ⟨hm1.trans hmag, hs1⟩

/-- Claim C8 (amended): for every block returned by heap_alloc(n) with
0 < n and n + 4138 <= 2^64 (so the internal size_t arithmetic of the
rounding, the size comparison and the page count cannot wrap), over a
heap whose blocks all carry the magic and fit uint32 and a PMM with at
most 2^20 free frames (the 4 GiB ceiling of pmm_init), the header
carries the magic word 0x1BADB002 and a recorded size of at least
(n rounded up to a multiple of 8) + 28, the packed header size.  For
larger n the size_t wrap makes the property fail; see the
counterexample. -/
theorem heap_alloc_header (s : HeapState) (n : Nat) (b : HeapBlock)
    (hmagic : ∀ blk ∈ s.heap, blk.magic = HEAP_BLOCK_MAGIC)
    (hsize32 : ∀ blk ∈ s.heap, blk.size < 2 ^ 32)
    (hfree : s.vmm.pmm.free_pages ≤ 2 ^ 20)
    (hn0 : 0 < n) (hn : n + 4138 ≤ 2 ^ 64)
    (halloc : (heapAlloc s n).1 = some b) :
    b.magic = HEAP_BLOCK_MAGIC ∧ roundUp8 n + HEAP_HEADER_SIZE ≤ b.size := by
  have hn7 : n + 7 < 2 ^ 64 := by omega
  have hr8 : roundUp8 n + 4123 < 2 ^ 64 := by
    have := roundUp8_le (n := n)
    omega
  rw [heapAlloc] at halloc
  rw [if_neg (by omega)] at halloc
  rw [heap_size_align hn7] at halloc
  dsimp only at halloc
  have hneed : add64 (roundUp8 n) HEAP_HEADER_SIZE = roundUp8 n + 28 :=
    add64_eq (by show roundUp8 n + 28 < 2 ^ 64; omega)
  cases hfind : findFreeBlock s.heap (add64 (roundUp8 n) HEAP_HEADER_SIZE) with
  | some i =>
    rw [hfind] at halloc
    obtain ⟨b0, hb0, hs0⟩ := findFreeBlock_some hfind
    rw [hneed] at hs0
    have hmem : b0 ∈ s.heap := List.get?_mem hb0
    exact heapAllocFinish_spec hb0 (hmagic b0 hmem) (hsize32 b0 hmem)
      (by show roundUp8 n + 28 ≤ _; omega) halloc
  | none =>
    rw [hfind] at halloc
    cases hexp : expandHeap s (roundUp8 n) with
    | mk o s1 =>
      rw [hexp] at halloc
      cases o with
      | none => exact absurd halloc (by simp)
      | some i =>
        dsimp only at halloc
        obtain ⟨nb, hnb, hnbm, hnb32, hnbge⟩ := expandHeap_some hfree hr8 hexp
        exact heapAllocFinish_spec hnb hnbm hnb32 hnbge halloc

/-- Counterexample to claim C8 as frozen: heap_alloc(2^64 - 7) on the
initial one-block heap succeeds - the request size wraps to 0 in the
size_t rounding (n + 7 overflows), find_free_block accepts the first
free block, and split_block records a size of just 28 - yet the claim
demands a recorded size of at least round8(2^64 - 7) + 28 = 2^64 + 28. -/
theorem heap_alloc_wrap_counterexample :
    ((heapAlloc exHeap (2 ^ 64 - 7)).1.map HeapBlock.magic) = some HEAP_BLOCK_MAGIC ∧
      ((heapAlloc exHeap (2 ^ 64 - 7)).1.map HeapBlock.size) = some 28 ∧
      ¬(roundUp8 (2 ^ 64 - 7) + HEAP_HEADER_SIZE ≤ 28) := by
  refine ⟨by decide, by decide, by decide⟩

/-- Witness for heap_alloc_header: an 8-byte allocation on the initial
heap returns the first block, split to a recorded size of 36 = 8 + 28,
with the magic in place. -/
theorem heap_alloc_header_witness :
    (heapAlloc exHeap 8).1 = some (⟨HEAP_BLOCK_MAGIC, 36, 0, 0x100000⟩ : HeapBlock) ∧
      ((⟨HEAP_BLOCK_MAGIC, 36, 0, 0x100000⟩ : HeapBlock).magic = HEAP_BLOCK_MAGIC ∧
        roundUp8 8 + HEAP_HEADER_SIZE ≤ (⟨HEAP_BLOCK_MAGIC, 36, 0, 0x100000⟩ : HeapBlock).size) :=
  ⟨by decide, heap_alloc_header exHeap 8 ⟨HEAP_BLOCK_MAGIC, 36, 0, 0x100000⟩
    (by decide) (by decide) (by decide) (by decide) (by decide) (by decide)⟩


end AlephOS
